import Mathlib

/-!
Verification development for the colrev deduplication and validation
subsystems.  The definitions below are shallow embeddings of the Python
functions in `colrev/ops/built_in/dedupe/simple_dedupe.py`,
`colrev/ops/validate.py` and
`colrev/ops/built_in/search_sources/dblp.py`.

Modelling conventions:
  * Python floats (similarity scores, thresholds) are modelled as `ℚ`.
  * The similarity functions (`get_similarity_detailed`,
    `get_record_similarity`) live outside this repository slice; they are
    abstract parameters of the embedded operations.
  * Fallible Python code (assertions, raised exceptions, unbound local
    variables) is modelled with `Option` / `Except`.
-/

namespace Colrev

/-- The record lifecycle states referenced by the dedupe queue builder
(`colrev.record.RecordState`). -/
inductive RecordState where
  | md_retrieved
  | md_imported
  | md_needs_manual_preparation
  | md_prepared
  | md_processed
  | rev_prescreen_included
  | rev_prescreen_excluded
deriving DecidableEq, Repr

/-- A record header as returned by `load_records_dict(header_only=True)`:
just the ID and the status, which is all `__get_dedupe_data` reads. -/
structure RecordHeader where
  ID : String
  colrev_status : RecordState
deriving DecidableEq, Repr

/-- `SimpleDedupe.SimpleDedupeSettings`: the two thresholds, with the
dataclass defaults 0.7 and 0.95. -/
structure SimpleDedupeSettings where
  merging_non_dup_threshold : ℚ := 7/10
  merging_dup_threshold : ℚ := 19/20
deriving DecidableEq, Repr

/-- `SimpleDedupe.__init__`: `from_dict` fills missing keys with the
dataclass defaults, then four assertions check that each threshold lies in
[0,1].  A failed assertion is modelled as `none`.  No assertion compares
the two thresholds with each other. -/
def simpleDedupeInit (nd d : Option ℚ) : Option SimpleDedupeSettings :=
  let s : SimpleDedupeSettings :=
    { merging_non_dup_threshold := nd.getD (7/10)
      merging_dup_threshold := d.getD (19/20) }
  if 0 ≤ s.merging_non_dup_threshold ∧ s.merging_non_dup_threshold ≤ 1
      ∧ 0 ≤ s.merging_dup_threshold ∧ s.merging_dup_threshold ≤ 1
  then some s else none

/-- The decision values appearing in `append_merges` results. -/
inductive Decision where
  | no_duplicate
  | potential_duplicate
  | duplicate
deriving DecidableEq, Repr

/-- The dict returned by `append_merges`
(`{"ID1": ..., "ID2": ..., "similarity": ..., "decision": ...}`);
`ID2 = "NA"` encodes the absence of a partner record. -/
structure DedupeResult where
  ID1 : String
  ID2 : String
  similarity : ℚ
  decision : Decision
deriving DecidableEq, Repr

/-- A record row of the dedupe queue dataframe: its ID plus the
bibliographic content fields consumed by the (abstract) similarity
function. -/
structure DRecord where
  ID : String
  fields : List (String × String)
deriving DecidableEq, Repr

/-- Maximum of a list of rationals, as `pandas.Series.max` computes it on
a nonempty column (the `[]` case is never reached by `append_merges`). -/
def maxQ : List ℚ → ℚ
  | [] => 0
  | x :: xs => xs.foldl max x

/-- `SimpleDedupe.__calculate_similarities_record`: score every row of the
queue dataframe against the last row and keep, per row, the ID and the
score (the `details` column is not modelled; it does not influence any
decision). -/
def calculate_similarities_record (sim : DRecord → DRecord → ℚ)
    (queue : List DRecord) : List (String × ℚ) :=
  match queue.getLast? with
  | none => []
  | some last => queue.map (fun r => (r.ID, sim r last))

/-- First row ID attaining the column maximum, as
`records_df.loc[records_df["similarity"].idxmax()]["ID"]` computes it
(`idxmax` returns the first occurrence of the maximum). -/
def idAtMax (cands : List (String × ℚ)) (m : ℚ) : String :=
  match cands.find? (fun p => p.2 = m) with
  | some p => p.1
  | none => "NA"

/-- `SimpleDedupe.append_merges` on one batch item: `recordId` is
`batch_item["record"]` and `queue` is `batch_item["queue"]` (the queue
prefix ending with the record under evaluation).  With fewer than two rows
the record is accepted trivially; otherwise all rows are scored against
the last row, the last row is dropped, and the maximal remaining score is
classified by the two thresholds. -/
def append_merges (s : SimpleDedupeSettings) (sim : DRecord → DRecord → ℚ)
    (recordId : String) (queue : List DRecord) : DedupeResult :=
  if queue.length < 2 then
    { ID1 := recordId, ID2 := "NA", similarity := 1, decision := .no_duplicate }
  else
    let cands := (calculate_similarities_record sim queue).dropLast
    let maxSim := maxQ (cands.map Prod.snd)
    if maxSim ≤ s.merging_non_dup_threshold then
      { ID1 := recordId, ID2 := "NA", similarity := maxSim,
        decision := .no_duplicate }
    else if s.merging_non_dup_threshold < maxSim
        ∧ maxSim < s.merging_dup_threshold then
      { ID1 := recordId, ID2 := idAtMax cands maxSim, similarity := maxSim,
        decision := .potential_duplicate }
    else
      { ID1 := recordId, ID2 := idAtMax cands maxSim, similarity := maxSim,
        decision := .duplicate }

/-- The dict built by `SimpleDedupe.__get_dedupe_data`. -/
structure DedupeData where
  nr_tasks : ℕ
  queue : List String
  items_start : ℕ
deriving DecidableEq, Repr

/-- `ids_to_dedupe`: IDs of the headers whose status is `md_prepared`. -/
def ids_to_dedupe (headers : List RecordHeader) : List String :=
  (headers.filter (fun h => h.colrev_status = .md_prepared)).map (fun h => h.ID)

/-- `processed_ids`: IDs of the headers whose status is none of
`md_imported`, `md_prepared`, `md_needs_manual_preparation`. -/
def processed_ids (headers : List RecordHeader) : List String :=
  (headers.filter (fun h =>
    ¬ (h.colrev_status = .md_imported ∨ h.colrev_status = .md_prepared
        ∨ h.colrev_status = .md_needs_manual_preparation))).map (fun h => h.ID)

/-- `SimpleDedupe.__get_dedupe_data`: partition the headers into the
pending part (`ids_to_dedupe`) and the fixed context part
(`processed_ids`); raise `CoLRevException` when more than 20 records are
pending and force mode is off (modelled as `Except.error`). -/
def get_dedupe_data (force_mode : Bool) (headers : List RecordHeader) :
    Except String DedupeData :=
  let idsTD := ids_to_dedupe headers
  let proc := processed_ids headers
  if 20 < idsTD.length ∧ force_mode = false then
    Except.error "to_use_simple_duplicate_identification_use_force"
  else
    Except.ok
      { nr_tasks := idsTD.length, queue := proc ++ idsTD,
        items_start := proc.length }

/-- `SimpleDedupe.__get_record_batch`: keep the store records whose ID is
in the queue (store iteration order), and emit, for each queue position
`i` from `items_start` on, the pending ID at `i` together with the first
`i + 1` rows.  (`prep_records` is an external normalisation step and is
absorbed into the abstract similarity function.) -/
def get_record_batch (dd : DedupeData) (records : List DRecord) :
    List (String × List DRecord) :=
  let q := records.filter (fun r => dd.queue.contains r.ID)
  ((List.range dd.queue.length).drop dd.items_start).map
    (fun i => ((dd.queue.drop i).headD "", q.take (i + 1)))

/-- `SimpleDedupe.run_dedupe` up to the classification stage: build the
dedupe data (possibly refusing), build the batch, and classify each batch
item with `append_merges`.  The subsequent merge application, commits and
interactive labelling are outside the scope of the embedded claims. -/
def run_dedupe (s : SimpleDedupeSettings) (sim : DRecord → DRecord → ℚ)
    (force_mode : Bool) (headers : List RecordHeader)
    (records : List DRecord) : Except String (List DedupeResult) :=
  match get_dedupe_data force_mode headers with
  | Except.error e => Except.error e
  | Except.ok dd =>
      Except.ok ((get_record_batch dd records).map
        (fun b => append_merges s sim b.1 b.2))

/-! ### Validation (`colrev/ops/validate.py`) -/

/-- A record dict as consumed by the validation functions: its ID, its
origin-token list `colrev_origin`, whether the `changed_in_target_commit`
key is present, whether the `colrev_status` key is present, and the
remaining bibliographic fields consumed by the (abstract) similarity
function.  Records produced by `load_changed_records` always carry a
`colrev_status` key, so `del record["colrev_status"]` is modelled by
clearing the flag. -/
structure VRecord where
  ID : String
  colrev_origin : List String
  changed_in_target_commit : Bool
  has_status : Bool
  fields : List (String × String)
deriving DecidableEq, Repr

/-- A validation finding `[prior_record, current_record, similarity]`. -/
abbrev Finding := VRecord × VRecord × ℚ

/-- Similarity of a finding (its third component). -/
def fsim (f : Finding) : ℚ := f.2.2

/-- Stable insertion of a finding into a list sorted by similarity
descending: the new element passes every element of greater-or-equal
similarity, so ties keep their original order — the behaviour of the
stable `list.sort(key=lambda x: x[2], reverse=True)`. -/
def insertDesc (f : Finding) : List Finding → List Finding
  | [] => [f]
  | g :: gs => if fsim f ≤ fsim g then g :: insertDesc f gs else f :: g :: gs

/-- Stable sort by similarity descending
(`change_diff.sort(key=lambda x: x[2], reverse=True)`). -/
def sortDesc : List Finding → List Finding
  | [] => []
  | f :: fs => insertDesc f (sortDesc fs)

/-- `Validate.__load_prior_records_dict`, inner loop: walk the
most-recent-first commit list (each entry paired with the records stored
at that commit, the parsing by `load_records_dict` being external), skip
until the target commit has been seen, then return the next entry's
contents.  Falling off the end leaves `prior_records_dict` unassigned in
the Python (an `UnboundLocalError` at the `return`), modelled as
`none`. -/
def load_prior_aux (target : String) (found : Bool) :
    List (String × List VRecord) → Option (List VRecord)
  | [] => none
  | (cid, contents) :: rest =>
      if cid = target then load_prior_aux target true rest
      else if found then some contents
      else load_prior_aux target false rest

/-- `Validate.__load_prior_records_dict`. -/
def load_prior_records_dict (target : String)
    (revlist : List (String × List VRecord)) : Option (List VRecord) :=
  load_prior_aux target false revlist

/-- The mutation performed by `validate_preparation_changes` on each
changed record before scoring: `del record_dict["changed_in_target_commit"]`
and `del record_dict["colrev_status"]`. -/
def stripPrep (r : VRecord) : VRecord :=
  { r with changed_in_target_commit := false, has_status := false }

/-- The findings accumulated by the loop of
`validate_preparation_changes`: for every changed record (stripped of its
two bookkeeping keys), for every origin token it carries, for every prior
record carrying that token, a `[prior, current, similarity]` triple is
appended. -/
def prep_diff_raw (rsim : VRecord → VRecord → ℚ) (priors : List VRecord)
    (records : List VRecord) : List Finding :=
  (records.filter (fun r => r.changed_in_target_commit)).flatMap (fun r0 =>
    let r := stripPrep r0
    r.colrev_origin.flatMap (fun o =>
      (priors.filter (fun p => o ∈ p.colrev_origin)).map
        (fun p => (p, r, rsim r p))))

/-- `Validate.validate_preparation_changes`: load the prior snapshot
(failure propagates), accumulate the raw findings, filter to
`similarity < 1`, sort by similarity descending.  The function mutates the
record dicts it is given, so the mutated record list is returned alongside
the findings. -/
def validate_preparation_changes (rsim : VRecord → VRecord → ℚ)
    (revlist : List (String × List VRecord)) (target : String)
    (records : List VRecord) : Option (List Finding × List VRecord) :=
  (load_prior_records_dict target revlist).map (fun priors =>
    (sortDesc ((prep_diff_raw rsim priors records).filter
        (fun f => fsim f < 1)),
      records.map (fun r =>
        if r.changed_in_target_commit then stripPrep r else r)))

/-- `itertools.combinations(els, 2)`: all position-ordered pairs. -/
def combos2 : List α → List (α × α)
  | [] => []
  | x :: xs => (xs.map (fun y => (x, y))) ++ combos2 xs

/-- The inner pair loop of `validate_merging_changes`: for each origin
pair, look up the first prior record carrying each token
(`record_1[0]` / `record_2[0]`; an empty lookup is an `IndexError`,
modelled as `none`) and score the two prior records against each other. -/
def merge_pair_findings (rsim : VRecord → VRecord → ℚ)
    (priors : List VRecord) : List (String × String) → Option (List Finding)
  | [] => some []
  | (e1, e2) :: rest => do
      let r1 ← (priors.filter (fun p => e1 ∈ p.colrev_origin)).head?
      let r2 ← (priors.filter (fun p => e2 ∈ p.colrev_origin)).head?
      let more ← merge_pair_findings rsim priors rest
      pure ((r1, r2, rsim r1 r2) :: more)

/-- The record loop of `validate_merging_changes`: skip records without
the `changed_in_target_commit` key, delete that key from the others, and
enumerate origin pairs only when the test `";" in record["colrev_origin"]`
succeeds — an element-membership test on the origin-token list, true only
when some origin token is the literal string `";"`. -/
def merging_diff_raw (rsim : VRecord → VRecord → ℚ) (priors : List VRecord) :
    List VRecord → Option (List Finding)
  | [] => some []
  | r :: rest =>
      if r.changed_in_target_commit then
        let r1 := { r with changed_in_target_commit := false }
        if ";" ∈ r1.colrev_origin then do
          let fs ← merge_pair_findings rsim priors
            (combos2 r1.colrev_origin)
          let more ← merging_diff_raw rsim priors rest
          pure (fs ++ more)
        else merging_diff_raw rsim priors rest
      else merging_diff_raw rsim priors rest

/-- `Validate.validate_merging_changes`: load the prior snapshot (failure
propagates), accumulate findings over the changed records, filter to
`similarity < 1`, sort by similarity descending, and return them together
with the mutated record list. -/
def validate_merging_changes (rsim : VRecord → VRecord → ℚ)
    (revlist : List (String × List VRecord)) (target : String)
    (records : List VRecord) : Option (List Finding × List VRecord) := do
  let priors ← load_prior_records_dict target revlist
  let diff ← merging_diff_raw rsim priors records
  pure (sortDesc (diff.filter (fun f => fsim f < 1)),
    records.map (fun r =>
      if r.changed_in_target_commit then
        { r with changed_in_target_commit := false }
      else r))

/-- `Validate.main` with `properties=False` paths embedded: the changed
records (as produced by `load_changed_records`) are a parameter.  The two
scope tests mirror the Python: a `prepare`/`all` scope runs preparation
validation first (mutating the shared record list), an `all`/`merge`
scope then *reassigns* `validation_details` to the merge-validation
result; any other scope leaves `validation_details` unassigned
(`UnboundLocalError`, modelled as `none`). -/
def validate_main (rsim : VRecord → VRecord → ℚ) (scope : String)
    (properties : Bool) (revlist : List (String × List VRecord))
    (target : String) (records : List VRecord) : Option (List Finding) :=
  if properties then some []
  else if scope = "prepare" ∨ scope = "all" then
    match validate_preparation_changes rsim revlist target records with
    | none => none
    | some (prepDiff, records1) =>
        if scope = "merge" ∨ scope = "all" then
          (validate_merging_changes rsim revlist target records1).map
            (fun p => p.1)
        else some prepDiff
  else if scope = "merge" ∨ scope = "all" then
    (validate_merging_changes rsim revlist target records).map (fun p => p.1)
  else none

/-! ### DBLP preparation lock (`colrev/ops/built_in/search_sources/dblp.py`) -/

/-- Outcome of the critical section of `get_masterdata_from_dblp` (the
feed reload, `set_id`, `add_record`, record merge and `save_feed_file`
between `dblp_lock.acquire` and `dblp_lock.release`): it either completes,
raises one of the exception types caught by the surrounding
`except (requests.exceptions.RequestException, UnicodeEncodeError)`, or
raises anything else. -/
inductive CriticalOutcome where
  | completes
  | raisesCaught
  | raisesUncaught
deriving DecidableEq, Repr

/-- Observable outcome of one call to `get_masterdata_from_dblp`:
whether this process still holds `dblp_lock` when control leaves the
function, whether an exception propagates to the caller, and whether the
shared feed file was written. -/
structure DblpPrepOutcome where
  lockHeld : Bool
  uncaught : Bool
  feedWritten : Bool
deriving DecidableEq, Repr

/-- Lock behaviour of `get_masterdata_from_dblp`.  `alreadyLinked` models
the early `return` when the record already carries a DBLP origin;
`matchFound` models whether some retrieved record exceeds the retrieval
similarity; `acquireOk` is the Boolean returned by
`dblp_lock.acquire(timeout=60)` — the code discards it and runs the
critical section either way.  `dblp_lock.release()` is reached only when
the critical section completes; the surrounding `except ...: pass`
swallows caught exceptions without releasing. -/
def get_masterdata_from_dblp (alreadyLinked matchFound acquireOk : Bool)
    (critical : CriticalOutcome) : DblpPrepOutcome :=
  if alreadyLinked then
    { lockHeld := false, uncaught := false, feedWritten := false }
  else if matchFound then
    match critical with
    | .completes =>
        { lockHeld := false, uncaught := false, feedWritten := true }
    | .raisesCaught =>
        { lockHeld := acquireOk, uncaught := false, feedWritten := false }
    | .raisesUncaught =>
        { lockHeld := acquireOk, uncaught := true, feedWritten := false }
  else
    { lockHeld := false, uncaught := false, feedWritten := false }

/-! ### Concrete inputs used by counterexamples and witnesses -/

/-- A similarity function that scores every pair 1 (an integer value, so
that concrete evaluations reduce in the kernel). -/
def simOne : DRecord → DRecord → ℚ := fun _ _ => 1

/-- A record-level similarity that scores every pair 0. -/
def rsimZero : VRecord → VRecord → ℚ := fun _ _ => 0

/-- Settings with integer-valued thresholds 0 < 1. -/
def sLow : SimpleDedupeSettings :=
  { merging_non_dup_threshold := 0, merging_dup_threshold := 1 }

/-- Settings with both thresholds equal to 1 (accepted by the
constructor). -/
def sOne : SimpleDedupeSettings :=
  { merging_non_dup_threshold := 1, merging_dup_threshold := 1 }

/-- A two-row dedupe queue. -/
def drA : DRecord := { ID := "A", fields := [] }

/-- Second row of the two-row dedupe queue. -/
def drB : DRecord := { ID := "B", fields := [] }

/-- The two-row dedupe queue `[drA, drB]` used to instantiate the dedupe
theorems (drB is the pending record, drA the single candidate). -/
def queueAB : List DRecord := [drA, drB]

/-- Twenty-one record headers in state `md_prepared`: one more pending
record than the sample-size ceiling. -/
def hdrs21 : List RecordHeader :=
  (List.range 21).map (fun n => { ID := toString n, colrev_status := .md_prepared })

/-- A two-header store: one record already processed, one prepared. -/
def hdrsW : List RecordHeader :=
  [{ ID := "p", colrev_status := .md_processed },
   { ID := "q", colrev_status := .md_prepared }]

/-- The dedupe data `__get_dedupe_data` builds for `hdrsW`. -/
def ddW : DedupeData := { nr_tasks := 1, queue := ["p", "q"], items_start := 1 }

/-- A record similarity that scores 1 on equal IDs and 0 otherwise. -/
def rsimID : VRecord → VRecord → ℚ := fun a b => if a.ID = b.ID then 1 else 0

/-- Prior record carrying origin token `s/1`. -/
def priorP1 : VRecord :=
  { ID := "P1", colrev_origin := ["s/1"], changed_in_target_commit := false,
    has_status := true, fields := [] }

/-- Prior record carrying origin token `t/2`. -/
def priorP2 : VRecord :=
  { ID := "P2", colrev_origin := ["t/2"], changed_in_target_commit := false,
    has_status := true, fields := [] }

/-- A current record produced by merging `s/1` and `t/2`, changed in the
target commit. -/
def mergedRec : VRecord :=
  { ID := "M", colrev_origin := ["s/1", "t/2"],
    changed_in_target_commit := true, has_status := true, fields := [] }

/-- A current single-origin record changed in the target commit. -/
def changedRec : VRecord :=
  { ID := "R", colrev_origin := ["s/1"], changed_in_target_commit := true,
    has_status := true, fields := [] }

/-- A two-commit history of the records file: the target commit `c2`
followed by its parent `c1` whose snapshot holds the two prior records. -/
def revlistTwo : List (String × List VRecord) :=
  [("c2", [changedRec]), ("c1", [priorP1, priorP2])]

/-! ### Helper lemmas -/

theorem self_le_foldl_max (xs : List ℚ) (x : ℚ) : x ≤ xs.foldl max x := by
  induction xs generalizing x with
  | nil => exact le_refl x
  | cons z zs ih => exact le_trans (le_max_left x z) (ih (max x z))

theorem mem_le_foldl_max {xs : List ℚ} {y : ℚ} (hy : y ∈ xs) (x : ℚ) :
    y ≤ xs.foldl max x := by
  induction xs generalizing x with
  | nil => cases hy
  | cons z zs ih =>
    rcases List.mem_cons.mp hy with h | h
    · subst h; exact le_trans (le_max_right x y) (self_le_foldl_max zs _)
    · exact ih h _

theorem foldl_max_mem (xs : List ℚ) (x : ℚ) :
    xs.foldl max x = x ∨ xs.foldl max x ∈ xs := by
  induction xs generalizing x with
  | nil => exact Or.inl rfl
  | cons z zs ih =>
    rcases ih (max x z) with h | h
    · rcases max_choice x z with hz | hz
      · exact Or.inl (by rw [List.foldl_cons, h, hz])
      · refine Or.inr ?_
        rw [List.foldl_cons, h, hz]
        exact List.mem_cons_self z zs
    · exact Or.inr (List.mem_cons_of_mem _ h)

theorem le_maxQ {l : List ℚ} {x : ℚ} (hx : x ∈ l) : x ≤ maxQ l := by
  cases l with
  | nil => cases hx
  | cons a as =>
    rcases List.mem_cons.mp hx with h | h
    · subst h; exact self_le_foldl_max as x
    · exact mem_le_foldl_max h a

theorem maxQ_mem {l : List ℚ} (h : l ≠ []) : maxQ l ∈ l := by
  cases l with
  | nil => exact absurd rfl h
  | cons a as =>
    rcases foldl_max_mem as a with h1 | h1
    · show as.foldl max a ∈ a :: as
      rw [h1]; exact List.mem_cons_self a as
    · exact List.mem_cons_of_mem _ h1

theorem mem_insertDesc {f g : Finding} {l : List Finding} :
    g ∈ insertDesc f l ↔ g = f ∨ g ∈ l := by
  induction l with
  | nil => simp [insertDesc]
  | cons a as ih =>
    by_cases hle : fsim f ≤ fsim a
    · simp only [insertDesc, if_pos hle, List.mem_cons, ih]
      tauto
    · simp only [insertDesc, if_neg hle, List.mem_cons]

theorem sorted_insertDesc {f : Finding} {l : List Finding}
    (h : l.Sorted (fun a b => fsim b ≤ fsim a)) :
    (insertDesc f l).Sorted (fun a b => fsim b ≤ fsim a) := by
  induction l with
  | nil => simp [insertDesc]
  | cons a as ih =>
    rcases List.sorted_cons.mp h with ⟨ha, hs⟩
    by_cases hle : fsim f ≤ fsim a
    · rw [insertDesc, if_pos hle]
      refine List.sorted_cons.mpr ⟨?_, ih hs⟩
      intro b hb
      rcases mem_insertDesc.mp hb with hb | hb
      · subst hb; exact hle
      · exact ha b hb
    · rw [insertDesc, if_neg hle]
      refine List.sorted_cons.mpr ⟨?_, h⟩
      intro b hb
      rcases List.mem_cons.mp hb with hb | hb
      · subst hb; exact le_of_lt (not_le.mp hle)
      · exact le_trans (ha b hb) (le_of_lt (not_le.mp hle))

theorem mem_sortDesc {g : Finding} {l : List Finding} :
    g ∈ sortDesc l ↔ g ∈ l := by
  induction l with
  | nil => simp [sortDesc]
  | cons a as ih =>
    rw [sortDesc, mem_insertDesc, ih, List.mem_cons]

theorem sorted_sortDesc (l : List Finding) :
    (sortDesc l).Sorted (fun a b => fsim b ≤ fsim a) := by
  induction l with
  | nil => simp [sortDesc]
  | cons a as ih => exact sorted_insertDesc ih

theorem find?_split {α : Type} {p : α → Bool} {l : List α} {a : α}
    (h : l.find? p = some a) :
    p a = true ∧ ∃ as bs, l = as ++ a :: bs ∧ ∀ x ∈ as, p x = false := by
  induction l with
  | nil => cases h
  | cons b bs ih =>
    by_cases hb : p b
    · rw [List.find?_cons_of_pos _ hb] at h
      injection h with h; subst h
      exact ⟨hb, [], bs, rfl, by intro x hx; cases hx⟩
    · rw [List.find?_cons_of_neg _ (by simpa using hb)] at h
      rcases ih h with ⟨hpa, as, cs, heq, hall⟩
      refine ⟨hpa, b :: as, cs, by rw [heq]; rfl, ?_⟩
      intro x hx
      rcases List.mem_cons.mp hx with hx | hx
      · subst hx; simpa using hb
      · exact hall x hx

theorem idAtMax_split (sim : DRecord → DRecord → ℚ) (t : DRecord) (m : ℚ) :
    ∀ comp : List DRecord, (∃ x ∈ comp, sim x t = m) →
      ∃
 as c bs, comp = as ++ c :: bs ∧ sim c t = m ∧ (∀ a ∈ as, sim a t ≠ m)
        ∧ idAtMax (comp.map (fun r => (r.ID, sim r t))) m = c.ID := by
  intro comp
  induction comp with
  | nil => rintro ⟨x, hx, -⟩; cases hx
  | cons a as ih =>
    intro hex
    by_cases ha : sim a t = m
    · refine ⟨[], a, as, rfl, ha, ?_, ?_⟩
      · intro x hx; cases hx
      · rw [List.map_cons, idAtMax,
          List.find?_cons_of_pos _ (by simpa using ha)]
    · have hex2 : ∃ x ∈ as, sim x t = m := by
        rcases hex with ⟨x, hx, hxm⟩
        rcases List.mem_cons.mp hx with hx | hx
        · subst hx; exact absurd hxm ha
        · exact ⟨x, hx, hxm⟩
      rcases ih hex2 with ⟨as0, c, bs0, heq, hc, hall, hid⟩
      refine ⟨a :: as0, c, bs0, by rw [heq]; rfl, hc, ?_, ?_⟩
      · intro x hx
        rcases List.mem_cons.mp hx with hx | hx
        · subst hx; exact ha
        · exact hall x hx
      · rw [List.map_cons, idAtMax,
          List.find?_cons_of_neg _ (by simpa using ha)]
        exact hid

theorem load_prior_aux_true_isSome (target : String) :
    ∀ l : List (String × List VRecord),
      (load_prior_aux target true l).isSome ↔ ∃ e ∈ l, e.1 ≠ target := by
  intro l
  induction l with
  | nil => simp [load_prior_aux]
  | cons hd rest ih =>
    obtain ⟨c, cont⟩ := hd
    by_cases hc : c = target
    · subst hc
      have hstep : load_prior_aux c true ((c, cont) :: rest)
          = load_prior_aux c true rest := by
        simp [load_prior_aux]
      rw [hstep, ih]
      constructor
      · rintro ⟨e, he, hne⟩
        exact ⟨e, List.mem_cons_of_mem _ he, hne⟩
      · rintro ⟨e, he, hne⟩
        rcases List.mem_cons.mp he with he | he
        · exact absurd (by rw [he]) hne
        · exact ⟨e, he, hne⟩
    · have hstep : load_prior_aux target true ((c, cont) :: rest)
          = some cont := by
        simp [load_prior_aux, hc]
      rw [hstep]
      simp only [Option.isSome_some, true_iff]
      exact ⟨(c, cont), List.mem_cons_self _ _, hc⟩

theorem load_prior_isSome_iff (target : String) :
    ∀ l : List (String × List VRecord), (l.map Prod.fst).Nodup →
      ((load_prior_records_dict target l).isSome ↔
        ∃ pre x suf, l = pre ++ x :: suf ∧ x.1 = target ∧ suf ≠ []) := by
  intro l
  induction l with
  | nil =>
    intro _
    constructor
    · intro h
      simp [load_prior_records_dict, load_prior_aux] at h
    · rintro ⟨pre, x, suf, heq, -, -⟩
      exact absurd heq.symm (by simp)
  | cons hd rest ih =>
    obtain ⟨c, cont⟩ := hd
    intro hnd
    rw [List.map_cons, List.nodup_cons] at hnd
    obtain ⟨hcnotin, hndrest⟩ := hnd
    by_cases hc : c = target
    · subst hc
      have hstep : load_prior_records_dict c ((c, cont) :: rest)
          = load_prior_aux c true rest := by
        simp [load_prior_records_dict, load_prior_aux]
      rw [hstep, load_prior_aux_true_isSome]
      constructor
      · rintro ⟨e, he, -⟩
        exact ⟨[], (c, cont), rest, rfl, rfl, List.ne_nil_of_mem he⟩
      · rintro ⟨pre, x, suf, heq, hx, hsuf⟩
        cases pre with
        | nil =>
          injection heq with h1 h2
          subst h2
          obtain ⟨e, suf2, rfl⟩ := List.exists_cons_of_ne_nil hsuf
          refine ⟨e, List.mem_cons_self _ _, fun he => hcnotin ?_⟩
          show c ∈ List.map Prod.fst (e :: suf2)
          rw [← he]
          exact List.mem_map_of_mem Prod.fst (List.mem_cons_self _ _)
        | cons p ps =>
          injection heq with h1 h2
          exfalso
          apply hcnotin
          show c ∈ List.map Prod.fst rest
          rw [h2, ← hx]
          exact List.mem_map_of_mem Prod.fst
            (List.mem_append_right _ (List.mem_cons_self _ _))
    · have hstep : load_prior_records_dict target ((c, cont) :: rest)
          = load_prior_records_dict target rest := by
        simp [load_prior_records_dict, load_prior_aux, hc]
      rw [hstep, ih hndrest]
      constructor
      · rintro ⟨pre, x, suf, heq, hx, hsuf⟩
        exact ⟨(c, cont) :: pre, x, suf, by rw [heq]; rfl, hx, hsuf⟩
      · rintro ⟨pre, x, suf, heq, hx, hsuf⟩
        cases pre with
        | nil =>
          injection heq with h1 h2
          exact absurd (by rw [← hx, ← h1]) hc
        | cons p ps =>
          injection heq with h1 h2
          exact ⟨ps, x, suf, h2, hx, hsuf⟩

theorem append_merges_not_small (s : SimpleDedupeSettings)
    (sim : DRecord → DRecord → ℚ) (rid : String) {queue : List DRecord}
    {t : DRecord} (h2 : 2 ≤ queue.length) (ht : queue.getLast? = some t) :
    append_merges s sim rid queue =
      if maxQ (queue.dropLast.map (fun c => sim c t))
          ≤ s.merging_non_dup_threshold then
        { ID1 := rid, ID2 := "NA",
          similarity := maxQ (queue.dropLast.map (fun c => sim c t)),
          decision := Decision.no_duplicate }
      else if s.merging_non_dup_threshold
            < maxQ (queue.dropLast.map (fun c => sim c t))
          ∧ maxQ (queue.dropLast.map (fun c => sim c t))
            < s.merging_dup_threshold then
        { ID1 := rid,
          ID2 := idAtMax (queue.dropLast.map (fun r => (r.ID, sim r t)))
            (maxQ (queue.dropLast.map (fun c => sim c t))),
          similarity := maxQ (queue.dropLast.map (fun c => sim c t)),
          decision := Decision.potential_duplicate }
      else
        { ID1 := rid,
          ID2 := idAtMax (queue.dropLast.map (fun r => (r.ID, sim r t)))
            (maxQ (queue.dropLast.map (fun c => sim c t))),
          similarity := maxQ (queue.dropLast.map (fun c => sim c t)),
          decision := Decision.duplicate } := by
  have hlt : ¬ queue.length < 2 := by omega
  have hcs : (calculate_similarities_record sim queue).dropLast
      = queue.dropLast.map (fun r => (r.ID, sim r t)) := by
    simp only [calculate_similarities_record, ht]
    exact (List.map_dropLast _ _).symm
  have hsnd : (queue.dropLast.map (fun r => (r.ID, sim r t))).map Prod.snd
      = queue.dropLast.map (fun c => sim c t) := by
    rw [List.map_map]
    rfl
  simp only [append_merges, if_neg hlt, hcs, hsnd]

/-! ### Claim theorems -/

/-- C1 (amended): provided the thresholds are strictly ordered
(`merging_non_dup_threshold < merging_dup_threshold`), `append_merges`
classifies a pending record with an empty comparison set as
`no_duplicate` with similarity 1 and no partner id, and otherwise, with
`max_score` the maximum similarity over the queue entries before it,
decides `no_duplicate` iff `max_score ≤ merging_non_dup_threshold`,
`potential_duplicate` iff the score lies strictly between the thresholds,
and `duplicate` iff `max_score ≥ merging_dup_threshold`; in particular
the boundary values go to `no_duplicate` and `duplicate` respectively. -/
theorem append_merges_threshold_boundaries
    (s : SimpleDedupeSettings) (sim : DRecord → DRecord → ℚ) (rid : String)
    (queue : List DRecord)
    (hord : s.merging_non_dup_threshold < s.merging_dup_threshold) :
    (queue.length < 2 →
      append_merges s sim rid queue
        = { ID1 := rid, ID2 := "NA", similarity := 1,
            decision := Decision.no_duplicate })
    ∧ (∀ t, 2 ≤ queue.length → queue.getLast? = some t →
        (((append_merges s sim rid queue).decision = Decision.no_duplicate ↔
          maxQ ((queue.take (queue.length - 1)).map (fun c => sim c t))
            ≤ s.merging_non_dup_threshold)
        ∧ ((append_merges s sim rid queue).decision
              = Decision.potential_duplicate ↔
          (s.merging_non_dup_threshold
              < maxQ ((queue.take (queue.length - 1)).map (fun c => sim c t))
            ∧ maxQ ((queue.take (queue.length - 1)).map (fun c => sim c t))
              < s.merging_dup_threshold))
        ∧ ((append_merges s sim rid queue).decision = Decision.duplicate ↔
          s.merging_dup_threshold
            ≤ maxQ ((queue.take (queue.length - 1)).map (fun c => sim c t))))) := by
  constructor
  · intro h
    rw [append_merges, if_pos h]
  · intro t h2 ht
    rw [← List.dropLast_eq_take]
    rw [append_merges_not_small s sim rid h2 ht]
    set m := maxQ (queue.dropLast.map (fun c => sim c t)) with hmdef
    by_cases h1 : m ≤ s.merging_non_dup_threshold
    · rw [if_pos h1]
      refine ⟨iff_of_true rfl h1, iff_of_false (by simp) ?_,
        iff_of_false (by simp) ?_⟩
      · rintro ⟨hlt1, -⟩; linarith
      · intro hge; linarith
    · by_cases hmid : s.merging_non_dup_threshold < m
          ∧ m < s.merging_dup_threshold
      · rw [if_neg h1, if_pos hmid]
        refine ⟨iff_of_false (by simp) h1, iff_of_true rfl hmid,
          iff_of_false (by simp) ?_⟩
        intro hge
        rcases hmid with ⟨-, hlt2⟩
        linarith
      · rw [if_neg h1, if_neg hmid]
        have hnd : s.merging_non_dup_threshold < m := not_le.mp h1
        have hd : s.merging_dup_threshold ≤ m := by
          by_contra hlt2
          exact hmid ⟨hnd, not_le.mp hlt2⟩
        exact ⟨iff_of_false (by simp) h1,
          iff_of_false (by simp) (fun hc => absurd hd (not_le.mpr hc.2)),
          iff_of_true rfl hd⟩

/-- C1 counterexample: with both thresholds set to 1 (a configuration the
constructor accepts) and a maximal comparison score of exactly 1, the
score is ≥ `merging_dup_threshold` yet the decision is `no_duplicate`,
not `duplicate` — refuting the claim's unconditional
"`max_score ≥ merging_dup_threshold` yields `duplicate`". -/
theorem append_merges_equal_thresholds_counterexample :
    simpleDedupeInit (some 1) (some 1) = some sOne
    ∧ maxQ ((queueAB.take (queueAB.length - 1)).map (fun c => simOne c drB))
        = 1
    ∧ sOne.merging_dup_threshold ≤ 1
    ∧ (append_merges sOne simOne "B" queueAB).decision
        = Decision.no_duplicate
    ∧ (append_merges sOne simOne "B" queueAB).decision
        ≠ Decision.duplicate := by
  refine ⟨by decide, by decide, by decide, by decide, by decide⟩

/-- Witness for C1: with strictly ordered thresholds 0 < 1 and the
concrete two-row queue, the classification instance produced by
`append_merges_threshold_boundaries` evaluates as stated. -/
theorem append_merges_threshold_boundaries_witness :
    (append_merges sLow simOne "B" queueAB).decision
        = Decision.no_duplicate ↔
      maxQ ((queueAB.take (queueAB.length - 1)).map (fun c => simOne c drB))
        ≤ sLow.merging_non_dup_threshold :=
  ((append_merges_threshold_boundaries sLow simOne "B" queueAB
    (by decide)).2 drB (by decide) (by decide)).1

/-- C2: for a pending record with a nonempty comparison set, the
reported similarity is the maximum of the pairwise scores against the
queue entries at positions strictly before it; the decision depends on
the similarity function only through those scores (never a self-score);
and whenever a partner is reported, `ID2` is the earliest-queued
candidate attaining the maximum. -/
theorem append_merges_max_and_tiebreak
    (s : SimpleDedupeSettings) (sim sim2 : DRecord → DRecord → ℚ)
    (rid : String) (queue : List DRecord) (t : DRecord)
    (h2 : 2 ≤ queue.length) (ht : queue.getLast? = some t) :
    (append_merges s sim rid queue).similarity
        = maxQ ((queue.take (queue.length - 1)).map (fun c => sim c t))
    ∧ ((∀ c ∈ queue.take (queue.length - 1), sim c t = sim2 c t) →
        append_merges s sim2 rid queue = append_merges s sim rid queue)
    ∧ ((append_merges s sim rid queue).decision ≠ Decision.no_duplicate →
        ∃ as c bs,
          queue.take (queue.length - 1) = as ++ c :: bs
          ∧ sim c t = (append_merges s sim rid queue).similarity
          ∧ (∀ a ∈ as, sim a t ≠ (append_merges s sim rid queue).similarity)
          ∧ (append_merges s sim rid queue).ID2 = c.ID) := by
  rw [← List.dropLast_eq_take]
  have hA := append_merges_not_small s sim rid h2 ht
  have hsim : (append_merges s sim rid queue).similarity
      = maxQ (queue.dropLast.map (fun c => sim c t)) := by
    rw [hA]; split_ifs <;> rfl
  refine ⟨hsim, ?_, ?_⟩
  · intro hagree
    have hmap1 : queue.dropLast.map (fun c => sim2 c t)
        = queue.dropLast.map (fun c => sim c t) :=
      List.map_eq_map_iff.mpr (fun a ha => (hagree a ha).symm)
    have hmap2 : queue.dropLast.map (fun r => (r.ID, sim2 r t))
        = queue.dropLast.map (fun r => (r.ID, sim r t)) :=
      List.map_eq_map_iff.mpr (fun a ha => by rw [hagree a ha])
    rw [append_merges_not_small s sim2 rid h2 ht, hA, hmap1, hmap2]
  · intro hdec
    have hne : queue.dropLast ≠ [] := by
      have hlen := List.length_dropLast queue
      intro hnil
      rw [hnil] at hlen
      simp only [List.length_nil] at hlen
      omega
    have hmapne : queue.dropLast.map (fun c => sim c t) ≠ [] := by
      intro hmap
      exact hne (List.map_eq_nil_iff.mp hmap)
    have hex : ∃ x ∈ queue.dropLast,
        sim x t = maxQ (queue.dropLast.map (fun c => sim c t)) := by
      rcases List.mem_map.mp (maxQ_mem hmapne) with ⟨x, hx, hxm⟩
      exact ⟨x, hx, hxm⟩
    rcases idAtMax_split sim t
        (maxQ (queue.dropLast.map (fun c => sim c t))) queue.dropLast hex with
      ⟨as, c, bs, heq, hc, hall, hid⟩
    have hID2 : (append_merges s sim rid queue).ID2
        = idAtMax (queue.dropLast.map (fun r => (r.ID, sim r t)))
            (maxQ (queue.dropLast.map (fun c => sim c t))) := by
      rw [hA]
      split_ifs with hh1 hh2
      · exact absurd (by rw [hA, if_pos hh1]) hdec
      · rfl
      · rfl
    refine ⟨as, c, bs, heq, ?_, ?_, ?_⟩
    · rw [hsim]; exact hc
    · intro a ha
      rw [hsim]
      exact hall a ha
    · rw [hID2]
      exact hid

/-- Witness for C2: on the concrete two-row queue, the reported
similarity is the maximum of the pairwise scores against the single
candidate. -/
theorem append_merges_max_and_tiebreak_witness :
    (append_merges sLow simOne "B" queueAB).similarity
        = maxQ ((queueAB.take (queueAB.length - 1)).map
            (fun c => simOne c drB)) :=
  (append_merges_max_and_tiebreak sLow simOne simOne "B" queueAB drB
    (by decide) (by decide)).1

/-- C3 (code evaluation at the failing input): a record changed in the
target commit whose origin set has two origin tokens is a merge result,
yet `validate_merging_changes` produces no scored pair for it: the guard
`";" in record["colrev_origin"]` is an element-membership test on the
origin-token list and is false unless some token is literally `";"`. -/
theorem merge_validation_semicolon_test_dead :
    mergedRec.changed_in_target_commit = true
    ∧ mergedRec.colrev_origin.length = 2
    ∧ load_prior_records_dict "c2" revlistTwo = some [priorP1, priorP2]
    ∧ validate_merging_changes rsimZero revlistTwo "c2" [mergedRec]
        = some ([], [{ mergedRec with changed_in_target_commit := false }]) := by
  refine ⟨rfl, rfl, by decide, by decide⟩

/-- C4 counterexample: a record with status `md_imported` is placed
neither in the pending part nor anywhere in the dedupe queue, refuting
"pending iff status is imported or prepared" and "no eligible record is
silently dropped". -/
theorem dedupe_queue_imported_dropped_counterexample :
    ∃ dd,
      get_dedupe_data false
        [{ ID := "a", colrev_status := RecordState.md_imported }]
        = Except.ok dd
      ∧ ({ ID := "a", colrev_status := RecordState.md_imported }
          : RecordHeader).colrev_status = RecordState.md_imported
      ∧ "a" ∉ dd.queue.drop dd.items_start
      ∧ "a" ∉ dd.queue :=
  ⟨{ nr_tasks := 0, queue := [], items_start := 0 }, rfl, rfl,
    by decide, by decide⟩

/-- C4 (amended): the queue built by `__get_dedupe_data` is the context
part (statuses other than `md_imported`, `md_prepared`,
`md_needs_manual_preparation`) followed by the pending part (status
`md_prepared` only); records with status `md_imported` or
`md_needs_manual_preparation` are dropped from the queue entirely. -/
theorem dedupe_queue_partition (force : Bool) (headers : List RecordHeader)
    (dd : DedupeData) (h : get_dedupe_data force headers = Except.ok dd)
    (hnodup : (headers.map (fun r => r.ID)).Nodup) :
    dd.queue = processed_ids headers ++ ids_to_dedupe headers
    ∧ dd.items_start = (processed_ids headers).length
    ∧ dd.queue.drop dd.items_start = ids_to_dedupe headers
    ∧ dd.queue.take dd.items_start = processed_ids headers
    ∧ (∀ i, i ∈ dd.queue.drop dd.items_start ↔
        ∃ r ∈ headers, r.ID = i
          ∧ r.colrev_status = RecordState.md_prepared)
    ∧ (∀ i, i ∈ dd.queue.take dd.items_start ↔
        ∃ r ∈ headers, r.ID = i
          ∧ ¬ (r.colrev_status = RecordState.md_imported
            ∨ r.colrev_status = RecordState.md_prepared
            ∨ r.colrev_status = RecordState.md_needs_manual_preparation))
    ∧ (∀ r ∈ headers,
        r.colrev_status = RecordState.md_imported
          ∨ r.colrev_status = RecordState.md_needs_manual_preparation →
        r.ID ∉ dd.queue) := by
  have hcomp : get_dedupe_data force headers
      = if 20 < (ids_to_dedupe headers).length ∧ force = false then
          Except.error "to_use_simple_duplicate_identification_use_force"
        else
          Except.ok
            { nr_tasks := (ids_to_dedupe headers).length,
              queue := processed_ids headers ++ ids_to_dedupe headers,
              items_start := (processed_ids headers).length } := rfl
  rw [hcomp] at h
  by_cases hcond : 20 < (ids_to_dedupe headers).length ∧ force = false
  · rw [if_pos hcond] at h; cases h
  · rw [if_neg hcond] at h
    injection h with h
    subst h
    refine ⟨rfl, rfl, List.drop_left _ _, List.take_left _ _, ?_, ?_, ?_⟩
    · intro i
      rw [List.drop_left]
      simp only [ids_to_dedupe, List.mem_map, List.mem_filter,
        decide_eq_true_eq]
      constructor
      · rintro ⟨r, ⟨hr, hst⟩, hid⟩
        exact ⟨r, hr, hid, hst⟩
      · rintro ⟨r, hr, hid, hst⟩
        exact ⟨r, ⟨hr, hst⟩, hid⟩
    · intro i
      rw [List.take_left]
      simp only [processed_ids, List.mem_map, List.mem_filter,
        decide_eq_true_eq]
      constructor
      · rintro ⟨r, ⟨hr, hst⟩, hid⟩
        exact ⟨r, hr, hid, by simpa using hst⟩
      · rintro ⟨r, hr, hid, hst⟩
        exact ⟨r, ⟨hr, by simpa using hst⟩, hid⟩
    · intro r hr hst hmem
      rcases List.mem_append.mp hmem with hmem | hmem
      · simp only [processed_ids, List.mem_map, List.mem_filter,
          decide_eq_true_eq] at hmem
        rcases hmem with ⟨r2, ⟨hr2, hst2⟩, hid2⟩
        have heq : r2 = r := List.inj_on_of_nodup_map hnodup hr2 hr hid2
        subst heq
        rcases hst with hst | hst
        · exact hst2 (Or.inl hst)
        · exact hst2 (Or.inr (Or.inr hst))
      · simp only [ids_to_dedupe, List.mem_map, List.mem_filter,
          decide_eq_true_eq] at hmem
        rcases hmem with ⟨r2, ⟨hr2, hst2⟩, hid2⟩
        have heq : r2 = r := List.inj_on_of_nodup_map hnodup hr2 hr hid2
        subst heq
        rcases hst with hst | hst <;> rw [hst] at hst2 <;> cases hst2

/-- Witness for C4: on a two-header store (one processed, one prepared),
the pending part of the queue built by `__get_dedupe_data` is exactly the
`md_prepared` IDs. -/
theorem dedupe_queue_partition_witness :
    (ddW.queue.drop ddW.items_start = ids_to_dedupe hdrsW)
    ∧ (∀ r ∈ hdrsW,
        r.colrev_status = RecordState.md_imported
          ∨ r.colrev_status = RecordState.md_needs_manual_preparation →
        r.ID ∉ ddW.queue) :=
  ⟨(dedupe_queue_partition false hdrsW ddW rfl (by decide)).2.2.1,
    (dedupe_queue_partition false hdrsW ddW rfl (by decide)).2.2.2.2.2.2⟩

/-- C5: the dedupe run refuses with an error when more than 20 records
are pending and force mode is off, classifying nothing; with at most 20
pending records, or with force mode on, it proceeds to produce a
classification list. -/
theorem dedupe_sample_size_guardrail (s : SimpleDedupeSettings)
    (sim : DRecord → DRecord → ℚ) (force : Bool)
    (headers : List RecordHeader) (records : List DRecord) :
    (20 < (ids_to_dedupe headers).length → force = false →
      run_dedupe s sim force headers records
        = Except.error "to_use_simple_duplicate_identification_use_force")
    ∧ ((ids_to_dedupe headers).length ≤ 20 ∨ force = true →
      ∃ ds, run_dedupe s sim force headers records = Except.ok ds) := by
  have hcomp : get_dedupe_data force headers
      = if 20 < (ids_to_dedupe headers).length ∧ force = false then
          Except.error "to_use_simple_duplicate_identification_use_force"
        else
          Except.ok
            { nr_tasks := (ids_to_dedupe headers).length,
              queue := processed_ids headers ++ ids_to_dedupe headers,
              items_start := (processed_ids headers).length } := rfl
  constructor
  · intro hgt hf
    rw [run_dedupe, hcomp, if_pos ⟨hgt, hf⟩]
  · intro hor
    have hcond : ¬ (20 < (ids_to_dedupe headers).length ∧ force = false) := by
      rintro ⟨h1, h2⟩
      rcases hor with h | h
      · omega
      · rw [h] at h2; cases h2
    exact ⟨(get_record_batch
        { nr_tasks := (ids_to_dedupe headers).length,
          queue := processed_ids headers ++ ids_to_dedupe headers,
          items_start := (processed_ids headers).length } records).map
        (fun b => append_merges s sim b.1 b.2),
      by rw [run_dedupe, hcomp, if_neg hcond]⟩

/-- Witness for C5: twenty-one `md_prepared` headers without force mode
produce the refusal error; the same store with force mode on runs. -/
theorem dedupe_sample_size_guardrail_witness :
    run_dedupe sLow simOne false hdrs21 []
      = Except.error "to_use_simple_duplicate_identification_use_force"
    ∧ ∃ ds, run_dedupe sLow simOne true hdrs21 [] = Except.ok ds :=
  ⟨(dedupe_sample_size_guardrail sLow simOne false hdrs21 []).1
      (by decide) rfl,
    (dedupe_sample_size_guardrail sLow simOne true hdrs21 []).2
      (Or.inr rfl)⟩

/-- C6 counterexample: inverted thresholds (non-dup threshold 1, dup
threshold 0, both inside [0,1]) are accepted by the constructor, refuting
"construction fails whenever the thresholds are inverted". -/
theorem simple_dedupe_init_inverted_accepted_counterexample :
    simpleDedupeInit (some 1) (some 0)
      = some { merging_non_dup_threshold := 1, merging_dup_threshold := 0 }
    ∧ ({ merging_non_dup_threshold := 1, merging_dup_threshold := 0 }
          : SimpleDedupeSettings).merging_dup_threshold
        < ({ merging_non_dup_threshold := 1, merging_dup_threshold := 0 }
          : SimpleDedupeSettings).merging_non_dup_threshold := by
  exact ⟨by decide, by decide⟩

/-- C6 (amended): construction succeeds exactly when both thresholds lie
in [0,1]; no ordering check is performed; the accepted values are the
given ones, never clamped; and the defaults are 0.70 and 0.95. -/
theorem simple_dedupe_init_range_only (nd d : Option ℚ) :
    ((simpleDedupeInit nd d).isSome ↔
      (0 ≤ nd.getD (7/10) ∧ nd.getD (7/10) ≤ 1
        ∧ 0 ≤ d.getD (19/20) ∧ d.getD (19/20) ≤ 1))
    ∧ simpleDedupeInit none none
        = some { merging_non_dup_threshold := 7/10,
                 merging_dup_threshold := 19/20 }
    ∧ (∀ s, simpleDedupeInit nd d = some s →
        s.merging_non_dup_threshold = nd.getD (7/10)
        ∧ s.merging_dup_threshold = d.getD (19/20)) := by
  have hcomp : simpleDedupeInit nd d
      = if 0 ≤ nd.getD (7/10) ∧ nd.getD (7/10) ≤ 1
            ∧ 0 ≤ d.getD (19/20) ∧ d.getD (19/20) ≤ 1 then
          some { merging_non_dup_threshold := nd.getD (7/10),
                 merging_dup_threshold := d.getD (19/20) }
        else none := rfl
  refine ⟨?_, ?_, ?_⟩
  · rw [hcomp]
    by_cases hc : 0 ≤ nd.getD (7/10) ∧ nd.getD (7/10) ≤ 1
        ∧ 0 ≤ d.getD (19/20) ∧ d.getD (19/20) ≤ 1
    · rw [if_pos hc]
      exact iff_of_true rfl hc
    · rw [if_neg hc]
      exact iff_of_false (by simp) hc
  · rw [show simpleDedupeInit none none
        = if (0:ℚ) ≤ 7/10 ∧ (7:ℚ)/10 ≤ 1 ∧ (0:ℚ) ≤ 19/20 ∧ (19:ℚ)/20 ≤ 1
          then some { merging_non_dup_threshold := 7/10,
                      merging_dup_threshold := 19/20 }
          else none from rfl]
    rw [if_pos (by norm_num)]
  · intro s0 hs
    rw [hcomp] at hs
    by_cases hc : 0 ≤ nd.getD (7/10) ∧ nd.getD (7/10) ≤ 1
        ∧ 0 ≤ d.getD (19/20) ∧ d.getD (19/20) ≤ 1
    · rw [if_pos hc] at hs
      injection hs with hs
      rw [← hs]
      exact ⟨rfl, rfl⟩
    · rw [if_neg hc] at hs
      cases hs

/-- Witness for C6: the constructor applied to the in-range values 1 and
0 returns exactly those values. -/
theorem simple_dedupe_init_range_only_witness :
    ({ merging_non_dup_threshold := 1, merging_dup_threshold := 0 }
        : SimpleDedupeSettings).merging_non_dup_threshold
      = (some (1:ℚ)).getD (7/10)
    ∧ ({ merging_non_dup_threshold := 1, merging_dup_threshold := 0 }
        : SimpleDedupeSettings).merging_dup_threshold
      = (some (0:ℚ)).getD (19/20) :=
  (simple_dedupe_init_range_only (some 1) (some 0)).2.2
    { merging_non_dup_threshold := 1, merging_dup_threshold := 0 }
    (by decide)

/-- C7: whenever preparation validation or merge validation returns a
result, its finding list contains only entries with similarity strictly
below 1 and is sorted by similarity in descending order. -/
theorem validation_outputs_sorted_filtered (rsim : VRecord → VRecord → ℚ)
    (revlist : List (String × List VRecord)) (target : String)
    (records : List VRecord) :
    (∀ pd recs,
      validate_preparation_changes rsim revlist target records
          = some (pd, recs) →
      pd.Sorted (fun a b => fsim b ≤ fsim a) ∧ ∀ f ∈ pd, fsim f < 1)
    ∧ (∀ md recs,
      validate_merging_changes rsim revlist target records
          = some (md, recs) →
      md.Sorted (fun a b => fsim b ≤ fsim a) ∧ ∀ f ∈ md, fsim f < 1) := by
  constructor
  · intro pd recs h
    rw [validate_preparation_changes] at h
    cases hl : load_prior_records_dict target revlist with
    | none => rw [hl] at h; simp at h
    | some priors =>
      rw [hl] at h
      simp only [Option.map_some'] at h
      injection h with h
      injection h with hpd hrecs
      rw [← hpd]
      refine ⟨sorted_sortDesc _, ?_⟩
      intro f hf
      have := (List.mem_filter.mp (mem_sortDesc.mp hf)).2
      simpa using this
  · intro md recs h
    rw [validate_merging_changes] at h
    cases hl : load_prior_records_dict target revlist with
    | none => rw [hl] at h; simp at h
    | some priors =>
      rw [hl] at h
      simp only [Option.bind_eq_bind, Option.some_bind] at h
      cases hd : merging_diff_raw rsim priors records with
      | none => rw [hd] at h; simp at h
      | some diff =>
        rw [hd] at h
        simp only [Option.bind_eq_bind, Option.some_bind,
          Option.pure_def] at h
        injection h with h
        injection h with hmd hrecs
        rw [← hmd]
        refine ⟨sorted_sortDesc _, ?_⟩
        intro f hf
        have := (List.mem_filter.mp (mem_sortDesc.mp hf)).2
        simpa using this

/-- Witness for C7: on a concrete history with no changed records, both
validation modes return an (empty) list satisfying the sortedness and
sub-1 filtering. -/
theorem validation_outputs_sorted_filtered_witness :
    (List.Sorted (fun a b => fsim b ≤ fsim a) ([] : List Finding)
      ∧ ∀ f ∈ ([] : List Finding), fsim f < 1)
    ∧ (List.Sorted (fun a b => fsim b ≤ fsim a) ([] : List Finding)
      ∧ ∀ f ∈ ([] : List Finding), fsim f < 1) :=
  ⟨(validation_outputs_sorted_filtered rsimZero revlistTwo "c2" []).1
      [] [] (by decide),
    (validation_outputs_sorted_filtered rsimZero revlistTwo "c2" []).2
      [] [] (by decide)⟩

theorem merging_diff_raw_unchanged (rsim : VRecord → VRecord → ℚ)
    (priors : List VRecord) :
    ∀ l : List VRecord, (∀ r ∈ l, r.changed_in_target_commit = false) →
      merging_diff_raw rsim priors l = some [] := by
  intro l
  induction l with
  | nil => intro _; rfl
  | cons r rest ih =>
    intro hall
    have hr := hall r (List.mem_cons_self _ _)
    rw [merging_diff_raw, if_neg (by rw [hr]; exact Bool.false_ne_true)]
    exact ih (fun x hx => hall x (List.mem_cons_of_mem _ hx))

/-- C8 counterexample: on a history where preparation validation produces
a (nonempty) finding list, the entrypoint with scope `all` returns the
empty list — the preparation findings are not contained in the result. -/
theorem validate_main_all_scope_counterexample :
    validate_preparation_changes rsimID revlistTwo "c2" [changedRec]
      = some ([(priorP1, stripPrep changedRec, 0)], [stripPrep changedRec])
    ∧ validate_main rsimID "all" false revlistTwo "c2" [changedRec]
      = some []
    ∧ (priorP1, stripPrep changedRec, (0:ℚ)) ∉ ([] : List Finding) := by
  refine ⟨by decide, by decide, by decide⟩

/-- C8 (amended): with scope `all`, the preparation findings are computed
and then discarded — the second branch reassigns the result to the
merge-validation findings — and because the preparation pass deleted the
`changed_in_target_commit` markers from the shared record list, the merge
validation sees no changed records, so the entrypoint returns the empty
list whenever preparation validation succeeds. -/
theorem validate_main_all_scope_returns_empty
    (rsim : VRecord → VRecord → ℚ) (revlist : List (String × List VRecord))
    (target : String) (records : List VRecord) (pd : List Finding)
    (recs1 : List VRecord)
    (h : validate_preparation_changes rsim revlist target records
        = some (pd, recs1)) :
    validate_main rsim "all" false revlist target records = some [] := by
  have h0 := h
  rw [validate_preparation_changes] at h0
  cases hl : load_prior_records_dict target revlist with
  | none => rw [hl] at h0; simp at h0
  | some priors =>
    rw [hl] at h0
    simp only [Option.map_some'] at h0
    injection h0 with h0
    injection h0 with hpd hrecs
    have hunch : ∀ r ∈ recs1, r.changed_in_target_commit = false := by
      intro r hr
      rw [← hrecs] at hr
      rcases List.mem_map.mp hr with ⟨r0, hr0, hmap⟩
      cases hb : r0.changed_in_target_commit with
      | true =>
        rw [← hmap]
        simp [hb, stripPrep]
      | false =>
        rw [← hmap]
        simp [hb]
    have hm : merging_diff_raw rsim priors recs1 = some [] :=
      merging_diff_raw_unchanged rsim priors recs1 hunch
    have hmerge : validate_merging_changes rsim revlist target recs1
        = some ([], recs1.map (fun r =>
            if r.changed_in_target_commit then
              { r with changed_in_target_commit := false }
            else r)) := by
      rw [validate_merging_changes, hl]
      simp only [Option.bind_eq_bind, Option.some_bind, hm,
        Option.pure_def]
      simp [sortDesc]
    have hstep : validate_main rsim "all" false revlist target records
        = match validate_preparation_changes rsim revlist target records with
          | none => none
          | some (_, records1) =>
              (validate_merging_changes rsim revlist target records1).map
                (fun p => p.1) := rfl
    rw [hstep]
    simp only [h]
    rw [hmerge]
    rfl

/-- Witness for C8: on the concrete history with one changed record,
preparation validation succeeds (with one finding), and the entrypoint
with scope `all` returns the empty list. -/
theorem validate_main_all_scope_returns_empty_witness :
    validate_main rsimID "all" false revlistTwo "c2" [changedRec]
      = some [] :=
  validate_main_all_scope_returns_empty rsimID revlistTwo "c2" [changedRec]
    [(priorP1, stripPrep changedRec, 0)] [stripPrep changedRec] (by decide)

/-- C9 counterexample: when the critical section raises one of the
exception types swallowed by the surrounding handler, the function
returns normally with the previously acquired lock still held — an exit
path without a release. -/
theorem dblp_lock_leak_counterexample :
    (get_masterdata_from_dblp false true true
        CriticalOutcome.raisesCaught).lockHeld = true
    ∧ (get_masterdata_from_dblp false true true
        CriticalOutcome.raisesCaught).uncaught = false :=
  ⟨rfl, rfl⟩

/-- C9 (amended): `dblp_lock.acquire` is called with a bounded 60-second
timeout, but its Boolean result is discarded — the function proceeds
into the critical section whether or not the lock was obtained, rather
than retrying — and the lock is released only on the path where the
critical section completes; on every exception path after acquisition
(caught or not) the lock remains held. -/
theorem dblp_lock_release_paths (acquireOk : Bool)
    (critical : CriticalOutcome) :
    (get_masterdata_from_dblp false true acquireOk
        CriticalOutcome.completes).lockHeld = false
    ∧ (get_masterdata_from_dblp false true acquireOk
        CriticalOutcome.raisesCaught).lockHeld = acquireOk
    ∧ (get_masterdata_from_dblp false true acquireOk
        CriticalOutcome.raisesUncaught).lockHeld = acquireOk
    ∧ (get_masterdata_from_dblp false true false critical).feedWritten
      = (get_masterdata_from_dblp false true true critical).feedWritten := by
  cases acquireOk <;> cases critical <;> exact ⟨rfl, rfl, rfl, rfl⟩

/-- C10: the prior-snapshot loader returns a snapshot exactly when the
target commit appears in the records-file history with at least one
strictly older commit after it (the walk is most-recent-first); when it
fails — target absent or oldest — both validation operations fail
instead of reporting zero findings. -/
theorem load_prior_requires_preceding_commit (target : String)
    (revlist : List (String × List VRecord))
    (rsim : VRecord → VRecord → ℚ) (records : List VRecord)
    (hnodup : (revlist.map Prod.fst).Nodup) :
    ((load_prior_records_dict target revlist).isSome ↔
      ∃ pre x suf, revlist = pre ++ x :: suf ∧ x.1 = target ∧ suf ≠ [])
    ∧ (load_prior_records_dict target revlist = none →
        validate_preparation_changes rsim revlist target records = none
        ∧ validate_merging_changes rsim revlist target records = none) := by
  refine ⟨load_prior_isSome_iff target revlist hnodup, ?_⟩
  intro h
  constructor
  · rw [validate_preparation_changes, h]
    rfl
  · rw [validate_merging_changes, h]
    rfl

/-- Witness for C10: `"c0"` is not a commit of the concrete two-commit
history, so the loader fails and both validation operations fail. -/
theorem load_prior_requires_preceding_commit_witness :
    validate_preparation_changes rsimZero revlistTwo "c0" [] = none
    ∧ validate_merging_changes rsimZero revlistTwo "c0" [] = none :=
  (load_prior_requires_preceding_commit "c0" revlistTwo rsimZero []
    (by decide)).2 (by decide)

end Colrev
